import Mathlib

/-!
# Verification of the ClassicPaxos-JS core against its specification

This file shallowly embeds the core data model and message handlers of the
ClassicPaxos-JS library (suggester / voter / arbiter roles, suggestion-id
ordering, retry coordination) as executable Lean definitions and proves, or
refutes, the specification's claims about them.

Conventions of the embedding:
* TypeScript `number` fields holding round counters are modelled as `Int`
  (the code only ever adds integers to them); delays in milliseconds are
  modelled as `Nat`.
* `Try` / nullable values become `Option`.
* Reactive pipelines are modelled on finite lists of events: an
  rx `scan` becomes an explicit recursion carrying the accumulator, a
  `takeUntil` becomes `List.takeWhile`, a `groupBy`+window batch is taken
  as the already-formed group (the claims quantify over closed groups).
* Handlers that perform storage writes and message sends are modelled as
  functions returning the ordered list of effects they execute, together
  with a separate interpreter (`applyEffects`) for the storage effects, so
  that persist-before-emit ordering is visible in the trace.
-/

namespace ClassicPaxos

/-- A suggestion id, from `src/paxos/SuggestionId.ts` (`Type`):
a tie-breaking proposer string `id` and a round counter `integer`. -/
structure SuggestionId where
  id : String
  integer : Int
  deriving Repr, DecidableEq

namespace SID

/-- Decimal digit list of a natural number (most significant first), with
explicit fuel so that the definition is structural; this models how a
non-negative JS `number` prints inside a template literal. -/
def natDigitsAux : Nat → Nat → List Char
  | 0, _ => []
  | fuel + 1, n =>
    if n < 10 then [Nat.digitChar n]
    else natDigitsAux fuel (n / 10) ++ [Nat.digitChar (n % 10)]

/-- Decimal string of a natural number, e.g. `natRepr 42 = "42"`. -/
def natRepr (n : Nat) : String :=
  String.mk (natDigitsAux (n + 1) n)

/-- Rendering of a JS `number` holding an integer: negative values print
with a leading minus sign. -/
def jsIntRepr (i : Int) : String :=
  if i < 0 then "-" ++ natRepr (-i).toNat else natRepr i.toNat

/-- Model of `SID.toString` from `SuggestionId.ts`: `` `${type.id}-${type.integer}` ``. -/
def toString (t : SuggestionId) : String :=
  t.id ++ "-" ++ jsIntRepr t.integer

/-- Model of `SID.increment` from `SuggestionId.ts`: bump the integer (by 1 by
default at every call site), keeping the id. -/
def increment (sid : SuggestionId) (byValue : Int := 1) : SuggestionId :=
  { id := sid.id, integer := sid.integer + byValue }

/-- Lexicographic less-or-equal on character lists, modelling the JS
string comparison (code-unit by code-unit). -/
def strLeAux : List Char → List Char → Bool
  | [], _ => true
  | _ :: _, [] => false
  | a :: as, b :: bs => if a < b then true else if b < a then false else strLeAux as bs

/-- The JS string comparison `a <= b` (lexicographic). -/
def strLe (a b : String) : Bool :=
  strLeAux a.data b.data

theorem strLeAux_refl (l : List Char) : strLeAux l l = true := by
  induction l with
  | nil => rfl
  | cons a as ih => simp [strLeAux, ih]

theorem strLeAux_total (x y : List Char) :
    strLeAux x y = true ∨ strLeAux y x = true := by
  induction x generalizing y with
  | nil => exact Or.inl rfl
  | cons a as ih =>
    cases y with
    | nil => exact Or.inr rfl
    | cons b bs =>
      rcases lt_trichotomy a b with h | h | h
      · left; simp [strLeAux, h]
      · subst h
        rcases ih bs with h1 | h1
        · left; simp [strLeAux, h1]
        · right; simp [strLeAux, h1]
      · right; simp [strLeAux, h]

theorem strLeAux_cons_iff (a b : Char) (as bs : List Char) :
    strLeAux (a :: as) (b :: bs) = true ↔
      a < b ∨ (a = b ∧ strLeAux as bs = true) := by
  rcases lt_trichotomy a b with h | h | h
  · simp [strLeAux, h]
  · subst h
    simp [strLeAux, lt_irrefl]
  · simp [strLeAux, h, lt_asymm h, ne_of_gt h]

theorem strLeAux_trans (x y z : List Char) (hxy : strLeAux x y = true)
    (hyz : strLeAux y z = true) : strLeAux x z = true := by
  induction x generalizing y z with
  | nil => rfl
  | cons a as ih =>
    cases y with
    | nil => simp [strLeAux] at hxy
    | cons b bs =>
      cases z with
      | nil => simp [strLeAux] at hyz
      | cons c cs =>
        rw [strLeAux_cons_iff] at hxy hyz ⊢
        rcases hxy with h1 | ⟨rfl, h1⟩ <;> rcases hyz with h2 | ⟨rfl, h2⟩
        · exact Or.inl (h1.trans h2)
        · exact Or.inl h1
        · exact Or.inl h2
        · exact Or.inr ⟨rfl, ih _ _ h1 h2⟩

/-- Model of `SID.isLargerThan` from `SuggestionId.ts` (also referenced as
`SID.higherThan` by the handlers): integer comparison first, and on equal
integers the string comparison `lhs.id >= rhs.id`.  Note that this is a
*non-strict* lexicographic order: it returns `true` on equal arguments. -/
def isLargerThan (lhs rhs : SuggestionId) : Bool :=
  if rhs.integer < lhs.integer then true
  else if lhs.integer = rhs.integer then strLe rhs.id lhs.id
  else false

/-- Model of `SID.takeHigher` from `SuggestionId.ts`. -/
def takeHigher (lhs rhs : SuggestionId) : SuggestionId :=
  if isLargerThan lhs rhs then lhs else rhs

/-- Model of `SID.highestSID` from `SuggestionId.ts`: JS `Array.reduce` with no
seed over the selector's suggestion ids; fails (`none`) on an empty
array. -/
def highestSID {A : Type} (obj : List A) (selector : A → SuggestionId) : Option A :=
  match obj with
  | [] => none
  | x :: xs =>
    some (xs.foldl (fun v1 v2 => if isLargerThan (selector v1) (selector v2) then v1 else v2) x)

/-- The strict lexicographic order on suggestion ids, as the spec's
`sid > lastGranted` reads (integer first, id as tie-break).  Modelled from
the spec's words for comparison with the code's `isLargerThan`. -/
def strictlyHigherSpec (lhs rhs : SuggestionId) : Bool :=
  if rhs.integer < lhs.integer then true
  else if lhs.integer = rhs.integer then !(strLe lhs.id rhs.id)
  else false

theorem isLargerThan_iff (a b : SuggestionId) :
    isLargerThan a b = true ↔
      b.integer < a.integer ∨ (a.integer = b.integer ∧ strLe b.id a.id = true) := by
  unfold isLargerThan
  by_cases h1 : b.integer < a.integer <;> by_cases h2 : a.integer = b.integer <;>
    simp [h1, h2]

theorem isLargerThan_refl (a : SuggestionId) : isLargerThan a a = true := by
  simp [isLargerThan_iff, strLe, strLeAux_refl]

theorem isLargerThan_total (a b : SuggestionId) :
    isLargerThan a b = true ∨ isLargerThan b a = true := by
  rcases lt_trichotomy a.integer b.integer with h | h | h
  · right; simp [isLargerThan_iff, h]
  · rcases strLeAux_total b.id.data a.id.data with h2 | h2
    · left; exact (isLargerThan_iff a b).mpr (Or.inr ⟨h, h2⟩)
    · right; exact (isLargerThan_iff b a).mpr (Or.inr ⟨h.symm, h2⟩)
  · left; simp [isLargerThan_iff, h]

theorem isLargerThan_trans {a b c : SuggestionId}
    (hab : isLargerThan a b = true) (hbc : isLargerThan b c = true) :
    isLargerThan a c = true := by
  rw [isLargerThan_iff] at hab hbc ⊢
  rcases hab with h1 | ⟨h1, h1'⟩ <;> rcases hbc with h2 | ⟨h2, h2'⟩
  · exact Or.inl (h2.trans h1)
  · exact Or.inl (by omega)
  · exact Or.inl (by omega)
  · exact Or.inr ⟨by omega, strLeAux_trans _ _ _ h2' h1'⟩

/-- The fold used by `highestSID` returns either its seed or a list
element, and the result's suggestion id is `isLargerThan`-above the seed's
and every element's. -/
theorem foldl_takeHigher_spec {A : Type} (selector : A → SuggestionId)
    (x : A) (xs : List A) :
    (xs.foldl (fun v1 v2 => if isLargerThan (selector v1) (selector v2) then v1 else v2) x = x ∨
      xs.foldl (fun v1 v2 => if isLargerThan (selector v1) (selector v2) then v1 else v2) x ∈ xs) ∧
    isLargerThan
      (selector (xs.foldl (fun v1 v2 => if isLargerThan (selector v1) (selector v2) then v1 else v2) x))
      (selector x) = true ∧
    ∀ y ∈ xs,
      isLargerThan
        (selector (xs.foldl (fun v1 v2 => if isLargerThan (selector v1) (selector v2) then v1 else v2) x))
        (selector y) = true := by
  induction xs generalizing x with
  | nil =>
    refine ⟨Or.inl rfl, isLargerThan_refl _, ?_⟩
    intro y hy; cases hy
  | cons z zs ih =>
    simp only [List.foldl_cons]
    by_cases h : isLargerThan (selector x) (selector z) = true
    · simp only [h, if_pos]
      obtain ⟨hmem, hseed, hall⟩ := ih x
      refine ⟨?_, hseed, ?_⟩
      · rcases hmem with h1 | h1
        · exact Or.inl h1
        · exact Or.inr (List.mem_cons_of_mem _ h1)
      · intro y hy
        rcases List.mem_cons.mp hy with rfl | hy'
        · exact isLargerThan_trans hseed h
        · exact hall y hy'
    · simp only [h, if_neg, Bool.false_eq_true, not_false_iff]
      obtain ⟨hmem, hseed, hall⟩ := ih z
      have hzx : isLargerThan (selector z) (selector x) = true := by
        rcases isLargerThan_total (selector x) (selector z) with h1 | h1
        · exact absurd h1 (by simpa using h)
        · exact h1
      refine ⟨?_, isLargerThan_trans hseed hzx, ?_⟩
      · rcases hmem with h1 | h1
        · exact Or.inr (by rw [h1]; exact List.mem_cons_self _ _)
        · exact Or.inr (List.mem_cons_of_mem _ h1)
      · intro y hy
        rcases List.mem_cons.mp hy with rfl | hy'
        · exact hseed
        · exact hall y hy'

/-- Lemma: `highestSID` on a non-empty list returns an element whose selected
suggestion id dominates every element's. -/
theorem highestSID_spec {A : Type} (obj : List A) (selector : A → SuggestionId)
    (h : obj ≠ []) :
    ∃ r, highestSID obj selector = some r ∧ r ∈ obj ∧
      ∀ y ∈ obj, isLargerThan (selector r) (selector y) = true := by
  match obj, h with
  | x :: xs, _ =>
    obtain ⟨hmem, hseed, hall⟩ := foldl_takeHigher_spec selector x xs
    refine ⟨_, rfl, ?_, ?_⟩
    · rcases hmem with h1 | h1
      · rw [h1]; exact List.mem_cons_self _ _
      · exact List.mem_cons_of_mem _ h1
    · intro y hy
      rcases List.mem_cons.mp hy with rfl | hy'
      · exact hseed
      · exact hall y hy'

end SID

/-! ## Messages (`src/paxos/Message.ts`) -/

/-- Model of `Message.LastAccepted.Type`: the accepted suggestion id and value. -/
structure LastAccepted (T : Type) where
  sid : SuggestionId
  value : T
  deriving Repr, DecidableEq

/-- Model of `Message.Permission.Request.Type`. -/
structure PermitRequest where
  senderId : String
  sid : SuggestionId
  deriving Repr, DecidableEq

/-- Model of `Message.Permission.Granted.Type`: the `Try<LastAccepted>` field
becomes an `Option`. -/
structure PermitGranted (T : Type) where
  sid : SuggestionId
  lastAccepted : Option (LastAccepted T)
  deriving Repr, DecidableEq

/-- Model of `Message.Suggestion.Type`. -/
structure Suggestion (T : Type) where
  senderId : String
  sid : SuggestionId
  value : T
  deriving Repr, DecidableEq

/-- Model of `Message.Acceptance.Type`. -/
structure Acceptance (T : Type) where
  sid : SuggestionId
  value : T
  deriving Repr, DecidableEq

/-- Model of `Message.Nack.Type`. -/
structure Nack where
  currentSID : SuggestionId
  lastGrantedSID : SuggestionId
  deriving Repr, DecidableEq

/-- Model of `Message.Success.Type`. -/
structure Success (T : Type) where
  value : T
  deriving Repr, DecidableEq

/-- Model of `Message.Generic.Type`: the tagged union of message cases. -/
inductive GenericMsg (T : Type) where
  | permitRequest (m : PermitRequest)
  | permitGranted (m : PermitGranted T)
  | suggestion (m : Suggestion T)
  | acceptance (m : Acceptance T)
  | nack (m : Nack)
  | success (m : Success T)
  deriving Repr, DecidableEq

/-! ## Voter (acceptor), from `Voter.ts` (`onPermissionRequest` /
`onSuggestionRequest`) -/

/-- The voter's persisted storage slots, accessed through the voter API
(`getLastGrantedSuggestionId` / `getLastAcceptedData`). -/
structure VoterState (T : Type) where
  lastGranted : Option SuggestionId
  lastAccepted : Option (LastAccepted T)
  deriving Repr, DecidableEq

/-- The observable actions a voter handler performs, in execution order:
storage writes (`storeLastGrantedSuggestionId` / `storeLastAcceptedData`)
and message emissions (`sendMessage` / `broadcastMessage`). -/
inductive VoterEffect (T : Type) where
  | storeLastGranted (sid : SuggestionId)
  | storeLastAccepted (data : LastAccepted T)
  | send (target : String) (msg : GenericMsg T)
  | broadcast (msg : GenericMsg T)
  deriving Repr, DecidableEq

/-- Model of `onPermissionRequest`: grant when there is no last granted suggestion
id or when `SID.higherThan(sid, lastGranted)` holds (the code's
`v.map(v1 => SID.higherThan(sid, v1)).getOrElse(true)`); the granted
reply carries the currently persisted last accepted data.  Otherwise
reply with a nack.  The effect list records that the store happens
before the reply is sent. -/
def onPermissionRequest {T : Type} (state : VoterState T) (msg : PermitRequest) :
    List (VoterEffect T) :=
  match state.lastGranted with
  | none =>
    [.storeLastGranted msg.sid,
     .send msg.senderId (.permitGranted ⟨msg.sid, state.lastAccepted⟩)]
  | some lastGranted =>
    if SID.isLargerThan msg.sid lastGranted then
      [.storeLastGranted msg.sid,
       .send msg.senderId (.permitGranted ⟨msg.sid, state.lastAccepted⟩)]
    else
      [.send msg.senderId (.nack ⟨msg.sid, lastGranted⟩)]

/-- Model of `onSuggestionRequest`: accept when there is no last granted suggestion
id or when `SID.higherThan(sid, lastGranted)` holds; persist the accepted
data, then broadcast the acceptance.  Otherwise send a nack to the
suggester. -/
def onSuggestionRequest {T : Type} (state : VoterState T) (msg : Suggestion T) :
    List (VoterEffect T) :=
  match state.lastGranted with
  | none =>
    [.storeLastAccepted ⟨msg.sid, msg.value⟩,
     .broadcast (.acceptance ⟨msg.sid, msg.value⟩)]
  | some lastGranted =>
    if SID.isLargerThan msg.sid lastGranted then
      [.storeLastAccepted ⟨msg.sid, msg.value⟩,
       .broadcast (.acceptance ⟨msg.sid, msg.value⟩)]
    else
      [.send msg.senderId (.nack ⟨msg.sid, lastGranted⟩)]

/-- Interpretation of one storage effect on the voter's persisted state;
message emissions do not change storage. -/
def applyEffect {T : Type} (state : VoterState T) : VoterEffect T → VoterState T
  | .storeLastGranted sid => { state with lastGranted := some sid }
  | .storeLastAccepted data => { state with lastAccepted := some data }
  | .send _ _ => state
  | .broadcast _ => state

/-- Interpretation of a handler's whole effect list on the voter state. -/
def applyEffects {T : Type} (state : VoterState T) (effects : List (VoterEffect T)) :
    VoterState T :=
  effects.foldl applyEffect state

/-! ## Suggester (`Suggester.ts`) -/

/-- Model of `onPermissionGranted` from `Suggester.ts`: given a closed batch of
permission-granted responses (already grouped by suggestion id), take the
first response's sid; collect the non-empty `lastAccepted` fields; if at
least `majority` of them exist, suggest the value of the one with the
logically highest sid, otherwise suggest the free value obtained from
`getFirstSuggestionValue` (modelled as the `firstValue` argument).
Returns `none` when nothing is broadcast (empty batch). -/
def onPermissionGranted {T : Type} (uid : String) (majority : Nat) (firstValue : T)
    (messages : List (PermitGranted T)) : Option (Suggestion T) :=
  match messages.head? with
  | none => none
  | some m0 =>
    let accepted := messages.filterMap (·.lastAccepted)
    match (if majority ≤ accepted.length then SID.highestSID accepted (·.sid) else none) with
    | some la => some ⟨uid, m0.sid, la.value⟩
    | none => some ⟨uid, m0.sid, firstValue⟩

/-- The scan accumulator of `ensureHighestSID` (`ScannedRetry`): whether
the most recent input compared as higher, and the most recent input
itself (a `Try` in the source, `none` only for the seed). -/
structure ScannedRetry where
  larger : Bool
  sid : Option SuggestionId
  deriving Repr, DecidableEq

/-- One step of the `scan` inside `ensureHighestSID`:
`larger := acc.sid.map(v1 => SID.higherThan(sid, v1)).getOrElse(true)`,
and the accumulator keeps the new input regardless of `larger`. -/
def scanStep (acc : ScannedRetry) (sid : SuggestionId) : ScannedRetry :=
  { larger :=
      match acc.sid with
      | none => true
      | some prev => SID.isLargerThan sid prev
    sid := some sid }

/-- The list of scan states produced by feeding `inputs` through
`scanStep` (rx `scan` emits one state per input; the seed itself is not
emitted). -/
def scanStates (acc : ScannedRetry) : List SuggestionId → List ScannedRetry
  | [] => []
  | x :: xs =>
    let next := scanStep acc x
    next :: scanStates next xs

/-- Model of `ensureHighestSID` from `Suggester.ts` (the suggester's monotone SID
gate): scan, keep the states flagged `larger`, and emit their sids. -/
def ensureHighestSID (inputs : List SuggestionId) : List SuggestionId :=
  ((scanStates ⟨true, none⟩ inputs).filter (·.larger)).filterMap (·.sid)

/-- The nack branch of the suggester's SID-advancement merge
(`setupBindings` in `Suggester.ts`): a closed `takeCutoff` group of nacks
(already grouped by `currentSID`) passes the majority filter, then the
group member with the logically highest `lastGrantedSID` is extracted and
its `lastGrantedSID` is fed onward. -/
def nackGroupMax (majority : Nat) (group : List Nack) : Option SuggestionId :=
  if majority ≤ group.length then
    (SID.highestSID group (·.lastGrantedSID)).map (·.lastGrantedSID)
  else none

/-- One step of the monotone gate guarding the try-permission trigger:
the accumulator keeps the new input, and the boolean says whether the
input passes (no previous input, or `SID.higherThan(input, previous)`). -/
def gateStep (prev : Option SuggestionId) (input : SuggestionId) :
    Option SuggestionId × Bool :=
  (some input,
    match prev with
    | none => true
    | some p => SID.isLargerThan input p)

/-- The permit request the suggester emits from one nack group, given the
gate's current accumulator: the group maximum is computed, passed through
the gate, incremented (`SID.increment`), and wrapped as
`{senderId: uid, sid}` (the `tryStream` → `PermitRequest` mapping in
`setupBindings`). -/
def nackRoundRequest (uid : String) (majority : Nat) (prev : Option SuggestionId)
    (group : List Nack) : Option PermitRequest :=
  match nackGroupMax majority group with
  | none => none
  | some m => if (gateStep prev m).2 then some ⟨uid, SID.increment m⟩ else none

/-! ## Arbiter (learner), from `Arbiter.ts` (`setupBindings`) -/

/-- The grouping key used by the arbiter's `groupBy`:
`` `${SID.toString(v.sid)}-${api.stringifyValue(v.value)}` ``. -/
def acceptanceKey {T : Type} (stringify : T → String) (m : Acceptance T) : String :=
  SID.toString m.sid ++ "-" ++ stringify m.value

/-- The stream of values handed to `declareFinalValue`, before the outer
`take(1)`: scanning the acceptances in arrival order, each time a
key's running count reaches exactly `majority`, the value of the group's
first message is emitted (`v.take(majority).toArray()` followed by
`Collections.first`). -/
def declCandidatesAux {T : Type} (stringify : T → String) (majority : Nat) :
    List (Acceptance T) → List (Acceptance T) → List T
  | [], _ => []
  | m :: rest, seen =>
    let seen' := seen ++ [m]
    let sameKey := seen'.filter (fun x => acceptanceKey stringify x = acceptanceKey stringify m)
    (if sameKey.length = majority then
      match seen'.find? (fun x => acceptanceKey stringify x = acceptanceKey stringify m) with
      | some first => [first.value]
      | none => []
    else []) ++ declCandidatesAux stringify majority rest seen'

/-- The at-most-one declared value (`declareStream` up to `take(1)`):
values the arbiter passes to `declareFinalValue`, in order. -/
def declarations {T : Type} (stringify : T → String) (majority : Nat)
    (msgs : List (Acceptance T)) : List T :=
  (declCandidatesAux stringify majority msgs []).take 1

/-- The success messages the arbiter broadcasts: one `Success{value}` per
declared value whose `declareFinalValue` call succeeded (`declOk`). -/
def successBroadcasts {T : Type} (stringify : T → String) (majority : Nat)
    (declOk : T → Bool) (msgs : List (Acceptance T)) : List (Success T) :=
  (declarations stringify majority msgs).filterMap
    (fun v => if declOk v then some ⟨v⟩ else none)

/-! ## Suggester event loop (`Suggester.ts` `setupBindings`): the
try-permission loop is cut by the first `Success`, while the merged
nack/under-quorum subscription feeding the monotone gate stays alive. -/

/-- The events the suggester's bindings react to, in arrival order: an
emission of the (retry-coordinated) try-permission stream, an incoming
`Success` message, or a SID produced by the merged under-quorum/nack
pathway. -/
inductive SuggesterEvent (T : Type) where
  | tryEmission (sid : Option SuggestionId)
  | successMsg (v : T)
  | sidInput (sid : SuggestionId)
  deriving Repr, DecidableEq

/-- Whether an event is an incoming `Success` message. -/
def isSuccessEvent {T : Type} : SuggesterEvent T → Bool
  | .successMsg _ => true
  | _ => false

/-- The permit requests the suggester broadcasts: every try-emission is
mapped through `mapNonNilOrElse(v => v, {id: uid, integer: 0})` to a
`PermitRequest{senderId: uid, sid}`, and the whole subscription is
`takeUntil(successStream)` — only events before the first `Success`
produce broadcasts. -/
def permitBroadcasts {T : Type} (uid : String) (events : List (SuggesterEvent T)) :
    List PermitRequest :=
  (events.takeWhile (fun e => !isSuccessEvent e)).filterMap
    (fun e =>
      match e with
      | .tryEmission sid => some ⟨uid, sid.getD ⟨uid, 0⟩⟩
      | _ => none)

/-- The outputs of the monotone SID gate over the whole event list: this
subscription is *not* cut by `Success`, so every `sidInput` event is
processed. -/
def sidGateOutputs {T : Type} (events : List (SuggesterEvent T)) : List SuggestionId :=
  ensureHighestSID (events.filterMap
    (fun e =>
      match e with
      | .sidInput sid => some sid
      | _ => none))

/-! ## Retry coordinators (`API.ts`, `RetryHandler`) -/

/-- The scan inside `CustomBackoff.coordinateRetries`: the accumulator's
`number` starts at `-1` and is incremented for every trigger emission, so
the n-th emission (0-indexed) is paired with `number = n`. -/
def coordScan {A : Type} (number : Int) : List A → List (Int × A)
  | [] => []
  | x :: xs => (number + 1, x) :: coordScan (number + 1) xs

/-- Model of `CustomBackoff.coordinateRetries` as a list transformer: scan, the
(vacuous) `filter(v => v.number > -1)`, then each emission is delayed by
`mapper(initialDelay, number)` milliseconds (`concatMap` over
`Observable.timer`).  The result pairs each emitted value with its
delay. -/
def coordinateRetries {A : Type} (mapper : Nat → Nat → Nat) (initialDelay : Nat)
    (trigger : List A) : List (Nat × A) :=
  ((coordScan (-1) trigger).filter (fun p => -1 < p.1)).map
    (fun p => (mapper initialDelay p.1.toNat, p.2))

/-- The delay mapper of `IncrementalBackoff(initialDelay, multiple)`:
`(a, b) => a * (multiple ** b)`. -/
def incrementalMapper (multiple : Nat) : Nat → Nat → Nat :=
  fun a b => a * multiple ^ b

/-- The delay mapper of `ExponentialBackoff`: `(_a, b) => 2 ** b * 100`
(its `initialDelay` is fixed to `0` and ignored). -/
def exponentialMapper : Nat → Nat → Nat :=
  fun _ b => 2 ^ b * 100

/-- Model of `Noop.coordinateRetries`: the identity transform (no delays). -/
def noopCoordinateRetries {A : Type} (trigger : List A) : List A :=
  trigger

/-! ## Claim C2 -/

/-- C2: for every `Suggestion{senderId, sid, value}` a voter processes, if
its persisted `lastGranted` is absent or `sid ≥ lastGranted` (the code's
lexicographic `isLargerThan`), it first persists
`lastAccepted = (sid, value)` and then broadcasts `Acceptance{sid, value}`;
otherwise it sends `Nack{currentSID = sid, lastGrantedSID = lastGranted}`
to the sender and leaves the state (in particular `lastAccepted`)
unchanged. -/
theorem voter_suggestion_handler_spec {T : Type} (state : VoterState T)
    (msg : Suggestion T) :
    ((state.lastGranted = none ∨
        ∃ lg, state.lastGranted = some lg ∧ SID.isLargerThan msg.sid lg = true) →
      onSuggestionRequest state msg =
        [.storeLastAccepted ⟨msg.sid, msg.value⟩,
         .broadcast (.acceptance ⟨msg.sid, msg.value⟩)] ∧
      applyEffects state (onSuggestionRequest state msg) =
        { state with lastAccepted := some ⟨msg.sid, msg.value⟩ }) ∧
    (∀ lg, state.lastGranted = some lg → SID.isLargerThan msg.sid lg = false →
      onSuggestionRequest state msg = [.send msg.senderId (.nack ⟨msg.sid, lg⟩)] ∧
      applyEffects state (onSuggestionRequest state msg) = state) := by
  constructor
  · rintro (hnone | ⟨lg, hsome, hge⟩)
    · simp [onSuggestionRequest, hnone, applyEffects, applyEffect]
    · simp [onSuggestionRequest, hsome, hge, applyEffects, applyEffect]
  · intro lg hsome hlt
    simp [onSuggestionRequest, hsome, hlt, applyEffects, applyEffect]

/-- Witness for C2: a voter with no persisted `lastGranted` accepts a
concrete suggestion, persisting before broadcasting. -/
theorem voter_suggestion_handler_spec_witness :
    onSuggestionRequest (T := Nat) ⟨none, none⟩ ⟨"s", ⟨"a", 0⟩, 5⟩ =
      [.storeLastAccepted ⟨⟨"a", 0⟩, 5⟩,
       .broadcast (.acceptance ⟨⟨"a", 0⟩, 5⟩)] ∧
    applyEffects (T := Nat) ⟨none, none⟩
        (onSuggestionRequest ⟨none, none⟩ ⟨"s", ⟨"a", 0⟩, 5⟩) =
      ⟨none, some ⟨⟨"a", 0⟩, 5⟩⟩ :=
  (voter_suggestion_handler_spec ⟨none, none⟩ ⟨"s", ⟨"a", 0⟩, 5⟩).1 (Or.inl rfl)

/-! ## Claim C3 -/

/-- C3 counterexample: a `PermitRequest` whose sid exactly equals the
persisted `lastGranted` is *not* strictly larger (the spec's
`sid > lastGranted` fails), yet the voter persists `lastGranted` again and
replies `PermitGranted` rather than `Nack`. -/
theorem voter_permission_equal_sid_counterexample :
    SID.strictlyHigherSpec ⟨"a", 0⟩ ⟨"a", 0⟩ = false ∧
    onPermissionRequest (T := Nat) ⟨some ⟨"a", 0⟩, none⟩ ⟨"s", ⟨"a", 0⟩⟩ =
      [.storeLastGranted ⟨"a", 0⟩,
       .send "s" (.permitGranted ⟨⟨"a", 0⟩, none⟩)] ∧
    onPermissionRequest (T := Nat) ⟨some ⟨"a", 0⟩, none⟩ ⟨"s", ⟨"a", 0⟩⟩ ≠
      [.send "s" (.nack ⟨⟨"a", 0⟩, ⟨"a", 0⟩⟩)] := by
  refine ⟨by decide, by decide, by decide⟩

/-- C3 (amended): for every `PermitRequest{senderId, sid}` a voter
processes, if its persisted `lastGranted` is absent or `sid ≥ lastGranted`
in the code's lexicographic order (`isLargerThan`, which also grants on
exact equality), it first persists `lastGranted = sid` and then replies
`PermitGranted{sid, lastAccepted = current persisted lastAccepted}` to
the sender; otherwise it replies `Nack{currentSID = sid, lastGrantedSID =
lastGranted}` and the state is unchanged. -/
theorem voter_permission_handler_spec {T : Type} (state : VoterState T)
    (msg : PermitRequest) :
    ((state.lastGranted = none ∨
        ∃ lg, state.lastGranted = some lg ∧ SID.isLargerThan msg.sid lg = true) →
      onPermissionRequest state msg =
        [.storeLastGranted msg.sid,
         .send msg.senderId (.permitGranted ⟨msg.sid, state.lastAccepted⟩)] ∧
      applyEffects state (onPermissionRequest state msg) =
        { state with lastGranted := some msg.sid }) ∧
    (∀ lg, state.lastGranted = some lg → SID.isLargerThan msg.sid lg = false →
      onPermissionRequest state msg = [.send msg.senderId (.nack ⟨msg.sid, lg⟩)] ∧
      applyEffects state (onPermissionRequest state msg) = state) := by
  constructor
  · rintro (hnone | ⟨lg, hsome, hge⟩)
    · simp [onPermissionRequest, hnone, applyEffects, applyEffect]
    · simp [onPermissionRequest, hsome, hge, applyEffects, applyEffect]
  · intro lg hsome hlt
    simp [onPermissionRequest, hsome, hlt, applyEffects, applyEffect]

/-- Witness for the amended C3: a concrete strictly-lower request is
nacked and the state is untouched. -/
theorem voter_permission_handler_spec_witness :
    onPermissionRequest (T := Nat) ⟨some ⟨"a", 3⟩, none⟩ ⟨"s", ⟨"a", 1⟩⟩ =
      [.send "s" (.nack ⟨⟨"a", 1⟩, ⟨"a", 3⟩⟩)] ∧
    applyEffects (T := Nat) ⟨some ⟨"a", 3⟩, none⟩
        (onPermissionRequest ⟨some ⟨"a", 3⟩, none⟩ ⟨"s", ⟨"a", 1⟩⟩) =
      ⟨some ⟨"a", 3⟩, none⟩ :=
  (voter_permission_handler_spec ⟨some ⟨"a", 3⟩, none⟩ ⟨"s", ⟨"a", 1⟩⟩).2
    ⟨"a", 3⟩ rfl (by decide)

/-! ## Claim C10 -/

/-- C10: the comparison `isLargerThan` is reflexive, and more generally
returns `true` whenever the two integers are equal and the left id is
lexicographically at least the right id; consequently a request or
suggestion carrying an SID exactly equal to the voter's persisted
`lastGranted` is treated as larger and is granted / accepted again. -/
theorem isLargerThan_reflexive_spec {T : Type} :
    (∀ a : SuggestionId, SID.isLargerThan a a = true) ∧
    (∀ a b : SuggestionId, a.integer = b.integer → SID.strLe b.id a.id = true →
      SID.isLargerThan a b = true) ∧
    (∀ (state : VoterState T) (sender : String) (lg : SuggestionId),
      state.lastGranted = some lg →
      onPermissionRequest state ⟨sender, lg⟩ =
        [.storeLastGranted lg,
         .send sender (.permitGranted ⟨lg, state.lastAccepted⟩)]) ∧
    (∀ (state : VoterState T) (sender : String) (lg : SuggestionId) (v : T),
      state.lastGranted = some lg →
      onSuggestionRequest state ⟨sender, lg, v⟩ =
        [.storeLastAccepted ⟨lg, v⟩, .broadcast (.acceptance ⟨lg, v⟩)]) := by
  refine ⟨SID.isLargerThan_refl, ?_, ?_, ?_⟩
  · intro a b h1 h2
    exact (SID.isLargerThan_iff a b).mpr (Or.inr ⟨h1, h2⟩)
  · intro state sender lg hsome
    simp [onPermissionRequest, hsome, SID.isLargerThan_refl]
  · intro state sender lg v hsome
    simp [onSuggestionRequest, hsome, SID.isLargerThan_refl]

/-- Witness for C10: reflexivity at a concrete SID, the equal-integer
rule at concrete ids, and re-granting at an exactly equal persisted
`lastGranted`. -/
theorem isLargerThan_reflexive_spec_witness :
    SID.isLargerThan ⟨"b", 7⟩ ⟨"b", 7⟩ = true ∧
    SID.isLargerThan ⟨"b", 7⟩ ⟨"a", 7⟩ = true ∧
    onPermissionRequest (T := Nat) ⟨some ⟨"b", 7⟩, none⟩ ⟨"s", ⟨"b", 7⟩⟩ =
      [.storeLastGranted ⟨"b", 7⟩,
       .send "s" (.permitGranted ⟨⟨"b", 7⟩, none⟩)] :=
  ⟨(isLargerThan_reflexive_spec (T := Nat)).1 ⟨"b", 7⟩,
   (isLargerThan_reflexive_spec (T := Nat)).2.1 ⟨"b", 7⟩ ⟨"a", 7⟩ rfl (by decide),
   (isLargerThan_reflexive_spec (T := Nat)).2.2.1 ⟨some ⟨"b", 7⟩, none⟩ "s" ⟨"b", 7⟩ rfl⟩

/-! ## Claim C1 -/

/-- C1: for every closed batch `G` of permission-granted responses
(grouped by SID, so all carrying sid `s`) with `|G| ≥ majority`, letting
`L` be the list of non-empty `lastAccepted` fields of `G`: if
`|L| ≥ majority` the suggester broadcasts a `Suggestion` carrying the
value of an element of `L` whose sid dominates every sid in `L`;
otherwise it broadcasts a `Suggestion` carrying the free value from
`getFirstSuggestionValue(uid)`.  Either way the suggestion carries the
group's sid `s` and `senderId = uid`. -/
theorem suggester_choose_value_spec {T : Type} (uid : String) (majority : Nat)
    (firstValue : T) (s : SuggestionId) (G : List (PermitGranted T))
    (hmaj : 0 < majority) (hlen : majority ≤ G.length)
    (hsid : ∀ m ∈ G, m.sid = s) :
    (majority ≤ (G.filterMap (·.lastAccepted)).length →
      ∃ la, la ∈ G.filterMap (·.lastAccepted) ∧
        (∀ x ∈ G.filterMap (·.lastAccepted),
          SID.isLargerThan la.sid x.sid = true) ∧
        onPermissionGranted uid majority firstValue G = some ⟨uid, s, la.value⟩) ∧
    ((G.filterMap (·.lastAccepted)).length < majority →
      onPermissionGranted uid majority firstValue G = some ⟨uid, s, firstValue⟩) := by
  obtain ⟨m0, G', rfl⟩ : ∃ m0 G', G = m0 :: G' := by
    cases G with
    | nil => simp at hlen; omega
    | cons a b => exact ⟨a, b, rfl⟩
  have hs0 : m0.sid = s := hsid m0 (List.mem_cons_self _ _)
  constructor
  · intro hL
    have hne : (m0 :: G').filterMap (·.lastAccepted) ≠ [] := by
      intro hnil
      rw [hnil] at hL
      simp at hL
      omega
    obtain ⟨la, hfind, hmem, hmax⟩ :=
      SID.highestSID_spec ((m0 :: G').filterMap (·.lastAccepted)) (·.sid) hne
    refine ⟨la, hmem, hmax, ?_⟩
    simp only [onPermissionGranted, List.head?, hL, if_pos, hfind, hs0]
  · intro hL
    have : ¬ majority ≤ ((m0 :: G').filterMap (·.lastAccepted)).length := by omega
    simp only [onPermissionGranted, List.head?, this, if_neg, not_false_iff, hs0]

/-- Witness for C1: in a concrete batch of three responses (majority 2)
with two non-empty prior accepted values, the suggestion carries the
value accepted under the highest sid. -/
theorem suggester_choose_value_spec_witness :
    ∃ la, la ∈ ([⟨⟨"s", 1⟩, none⟩, ⟨⟨"s", 1⟩, some ⟨⟨"x", 0⟩, 7⟩⟩,
        ⟨⟨"s", 1⟩, some ⟨⟨"y", 3⟩, 8⟩⟩] : List (PermitGranted Nat)).filterMap
        (·.lastAccepted) ∧
      (∀ x ∈ ([⟨⟨"s", 1⟩, none⟩, ⟨⟨"s", 1⟩, some ⟨⟨"x", 0⟩, 7⟩⟩,
          ⟨⟨"s", 1⟩, some ⟨⟨"y", 3⟩, 8⟩⟩] : List (PermitGranted Nat)).filterMap
          (·.lastAccepted), SID.isLargerThan la.sid x.sid = true) ∧
      onPermissionGranted "u" 2 99
          [⟨⟨"s", 1⟩, none⟩, ⟨⟨"s", 1⟩, some ⟨⟨"x", 0⟩, 7⟩⟩,
           ⟨⟨"s", 1⟩, some ⟨⟨"y", 3⟩, 8⟩⟩] =
        some ⟨"u", ⟨"s", 1⟩, la.value⟩ :=
  (suggester_choose_value_spec "u" 2 99 ⟨"s", 1⟩
    [⟨⟨"s", 1⟩, none⟩, ⟨⟨"s", 1⟩, some ⟨⟨"x", 0⟩, 7⟩⟩, ⟨⟨"s", 1⟩, some ⟨⟨"y", 3⟩, 8⟩⟩]
    (by decide) (by decide) (by decide)).1 (by decide)

/-! ## Claim C4 -/

/-- C4: evaluation of the suggester's monotone gate at the input sequence
`(a,5), (a,3), (a,4)`.  The gate's scan compares each input to the
previous *input* (not to the last *emitted* SID) and non-strictly, so it
emits `(a,5)` and then `(a,4)`: the emitted SID sequence is not strictly
increasing, contradicting the gate's own documented purpose ("ensure
that only the highest SID (at any point in time) is emitted"). -/
theorem ensureHighestSID_nonmonotone_emission :
    ensureHighestSID [⟨"a", 5⟩, ⟨"a", 3⟩, ⟨"a", 4⟩] = [⟨"a", 5⟩, ⟨"a", 4⟩] ∧
    SID.strictlyHigherSpec ⟨"a", 4⟩ ⟨"a", 5⟩ = false ∧
    ensureHighestSID [⟨"a", 5⟩, ⟨"a", 5⟩] = [⟨"a", 5⟩, ⟨"a", 5⟩] := by
  refine ⟨by decide, by decide, by decide⟩

/-! ## Claim C5 -/

/-- C5: for every closed nack group (grouped by `currentSID`) that passes
the majority filter — so `nackGroupMax` produces the group's maximal
`lastGrantedSID` `M` — and that the monotone gate lets through, the
permit request the suggester issues next carries
`sid = increment(M)`, i.e. `sid.integer = M.integer + 1` and
`sid.id = M.id` where `M` dominates every `lastGrantedSID` in the
group. -/
theorem nack_group_advances_sid_spec (uid : String) (majority : Nat)
    (prev : Option SuggestionId) (G : List Nack) (M : SuggestionId)
    (hmax : nackGroupMax majority G = some M)
    (hpass : (gateStep prev M).2 = true) :
    majority ≤ G.length ∧
    (∃ m ∈ G, M = m.lastGrantedSID ∧
      ∀ x ∈ G, SID.isLargerThan M x.lastGrantedSID = true) ∧
    nackRoundRequest uid majority prev G =
      some ⟨uid, ⟨M.id, M.integer + 1⟩⟩ := by
  have hle : majority ≤ G.length := by
    by_contra hlt
    simp [nackGroupMax, hlt] at hmax
  refine ⟨hle, ?_, ?_⟩
  · have hmax' : (SID.highestSID G (·.lastGrantedSID)).map (·.lastGrantedSID) = some M := by
      simpa [nackGroupMax, hle] using hmax
    obtain ⟨r, hr, hM⟩ := Option.map_eq_some'.mp hmax'
    have hne : G ≠ [] := by
      intro hnil
      rw [hnil] at hr
      simp [SID.highestSID] at hr
    obtain ⟨r', hr', hmem, hdom⟩ := SID.highestSID_spec G (·.lastGrantedSID) hne
    rw [hr] at hr'
    obtain rfl := Option.some_inj.mp hr'
    exact ⟨r, hmem, hM.symm, by simpa [hM] using hdom⟩
  · simp [nackRoundRequest, hmax, hpass, SID.increment]

/-- Witness for C5: a fresh-gate proposer nacked by a majority group whose
maximal `lastGrantedSID` is `(b, 9)` issues `PermitRequest` with sid
`(b, 10)`. -/
theorem nack_group_advances_sid_spec_witness :
    2 ≤ ([⟨⟨"c", 1⟩, ⟨"a", 4⟩⟩, ⟨⟨"c", 1⟩, ⟨"b", 9⟩⟩] : List Nack).length ∧
    (∃ m ∈ ([⟨⟨"c", 1⟩, ⟨"a", 4⟩⟩, ⟨⟨"c", 1⟩, ⟨"b", 9⟩⟩] : List Nack),
      (⟨"b", 9⟩ : SuggestionId) = m.lastGrantedSID ∧
      ∀ x ∈ ([⟨⟨"c", 1⟩, ⟨"a", 4⟩⟩, ⟨⟨"c", 1⟩, ⟨"b", 9⟩⟩] : List Nack),
        SID.isLargerThan ⟨"b", 9⟩ x.lastGrantedSID = true) ∧
    nackRoundRequest "u" 2 none [⟨⟨"c", 1⟩, ⟨"a", 4⟩⟩, ⟨⟨"c", 1⟩, ⟨"b", 9⟩⟩] =
      some ⟨"u", ⟨"b", 10⟩⟩ :=
  nack_group_advances_sid_spec "u" 2 none
    [⟨⟨"c", 1⟩, ⟨"a", 4⟩⟩, ⟨⟨"c", 1⟩, ⟨"b", 9⟩⟩] ⟨"b", 9⟩ (by decide) rfl

/-! ## Claim C6 -/

/-- Every declaration candidate arises at a step where its key's running
count over the messages seen so far is exactly `majority`, and the
declared value is the value of the first seen message with that key. -/
theorem declCandidatesAux_origin {T : Type} (stringify : T → String) (majority : Nat) :
    ∀ (rest seen : List (Acceptance T)),
      ∀ v ∈ declCandidatesAux stringify majority rest seen,
        ∃ j, j ≤ rest.length ∧ ∃ m, m ∈ seen ++ rest.take j ∧
          majority ≤ ((seen ++ rest.take j).filter
            (fun x => acceptanceKey stringify x = acceptanceKey stringify m)).length ∧
          ∃ f, f ∈ seen ++ rest.take j ∧
            acceptanceKey stringify f = acceptanceKey stringify m ∧ v = f.value := by
  intro rest
  induction rest with
  | nil => intro seen v hv; cases hv
  | cons m rest' ih =>
    intro seen v hv
    simp only [declCandidatesAux, List.mem_append] at hv
    rcases hv with hv | hv
    · by_cases hc :
        ((seen ++ [m]).filter
          (fun x => acceptanceKey stringify x = acceptanceKey stringify m)).length = majority
      · rw [if_pos hc] at hv
        rcases hfind : (seen ++ [m]).find?
            (fun x => acceptanceKey stringify x = acceptanceKey stringify m) with _ | f
        · rw [hfind] at hv; cases hv
        · rw [hfind] at hv
          refine ⟨1, by simp, m, ?_, ?_, f, ?_, ?_, ?_⟩
          · simp
          · simp only [List.take]
            omega
          · simpa using List.mem_of_find?_eq_some hfind
          · simpa using List.find?_some hfind
          · simpa using hv
      · rw [if_neg hc] at hv; cases hv
    · obtain ⟨j, hj, m', hm', hcount, f, hf, hkey, hval⟩ := ih (seen ++ [m]) v hv
      refine ⟨j + 1, by simpa using hj, m', ?_, ?_, f, ?_, hkey, hval⟩
      · simpa [List.append_assoc] using hm'
      · have : (seen ++ [m]) ++ rest'.take j = seen ++ (m :: rest').take (j + 1) := by
          simp [List.append_assoc]
        rw [this] at hcount
        omega
      · simpa [List.append_assoc] using hf

/-- C6 (amended): the arbiter calls `declareFinalValue` at most once; any
declared value originates from a step at which at least `majority`
acceptance messages with identical grouping keys
`toString(sid) ++ "-" ++ stringify(value)` had been witnessed (identical
`(sid, stringify(value))` pairs always give identical keys, but the
concatenated key can also collide for distinct pairs), and it is the
value of the group's first message; and each successful declaration is
broadcast as `Success{value}` with the declared value. -/
theorem arbiter_declare_once_spec {T : Type} (stringify : T → String)
    (majority : Nat) (declOk : T → Bool) (msgs : List (Acceptance T)) :
    (declarations stringify majority msgs).length ≤ 1 ∧
    (∀ v ∈ declarations stringify majority msgs,
      ∃ j, j ≤ msgs.length ∧ ∃ m, m ∈ msgs.take j ∧
        majority ≤ ((msgs.take j).filter
          (fun x => acceptanceKey stringify x = acceptanceKey stringify m)).length ∧
        ∃ f, f ∈ msgs.take j ∧
          acceptanceKey stringify f = acceptanceKey stringify m ∧ v = f.value) ∧
    successBroadcasts stringify majority declOk msgs =
      (declarations stringify majority msgs).filterMap
        (fun v => if declOk v then some ⟨v⟩ else none) ∧
    (∀ v ∈ declarations stringify majority msgs, declOk v = true →
      (⟨v⟩ : Success T) ∈ successBroadcasts stringify majority declOk msgs) := by
  refine ⟨?_, ?_, rfl, ?_⟩
  · simp [declarations]
  · intro v hv
    have hv' : v ∈ declCandidatesAux stringify majority msgs [] := by
      have := List.take_subset 1 (declCandidatesAux stringify majority msgs [])
      exact this hv
    simpa using declCandidatesAux_origin stringify majority msgs [] v hv'
  · intro v hv hok
    simp only [successBroadcasts, List.mem_filterMap]
    exact ⟨v, hv, by simp [hok]⟩

/-- Witness for C6: with majority 2, two identical acceptances declare
the value once, at a step witnessing two identical keys. -/
theorem arbiter_declare_once_spec_witness :
    (declarations (fun n => SID.natRepr n) 2
      [⟨⟨"a", 1⟩, (5 : Nat)⟩, ⟨⟨"a", 1⟩, 5⟩]).length ≤ 1 ∧
    (∃ j, j ≤ ([⟨⟨"a", 1⟩, (5 : Nat)⟩, ⟨⟨"a", 1⟩, 5⟩] : List (Acceptance Nat)).length ∧
      ∃ m, m ∈ ([⟨⟨"a", 1⟩, (5 : Nat)⟩, ⟨⟨"a", 1⟩, 5⟩] : List (Acceptance Nat)).take j ∧
        2 ≤ ((([⟨⟨"a", 1⟩, (5 : Nat)⟩, ⟨⟨"a", 1⟩, 5⟩] : List (Acceptance Nat)).take j).filter
          (fun x => acceptanceKey (fun n => SID.natRepr n) x =
            acceptanceKey (fun n => SID.natRepr n) m)).length ∧
        ∃ f, f ∈ ([⟨⟨"a", 1⟩, (5 : Nat)⟩, ⟨⟨"a", 1⟩, 5⟩] : List (Acceptance Nat)).take j ∧
          acceptanceKey (fun n => SID.natRepr n) f =
            acceptanceKey (fun n => SID.natRepr n) m ∧ (5 : Nat) = f.value) ∧
    (⟨5⟩ : Success Nat) ∈ successBroadcasts (fun n => SID.natRepr n) 2
      (fun _ => true) [⟨⟨"a", 1⟩, (5 : Nat)⟩, ⟨⟨"a", 1⟩, 5⟩] :=
  ⟨(arbiter_declare_once_spec (fun n => SID.natRepr n) 2 (fun _ => true)
      [⟨⟨"a", 1⟩, 5⟩, ⟨⟨"a", 1⟩, 5⟩]).1,
   (arbiter_declare_once_spec (fun n => SID.natRepr n) 2 (fun _ => true)
      [⟨⟨"a", 1⟩, 5⟩, ⟨⟨"a", 1⟩, 5⟩]).2.1 5 (by decide),
   (arbiter_declare_once_spec (fun n => SID.natRepr n) 2 (fun _ => true)
      [⟨⟨"a", 1⟩, 5⟩, ⟨⟨"a", 1⟩, 5⟩]).2.2.2 5 (by decide) rfl⟩

/-- C6 counterexample: the arbiter's grouping key
`toString(sid) ++ "-" ++ stringify(value)` can collide for distinct
`(sid, stringify(value))` pairs, so with majority 2 the arbiter declares
a value after witnessing two acceptances that agree in *neither* sid nor
value: the claim's "at least majority Acceptance messages whose
(sid, stringify(value)) pairs are identical" fails. -/
theorem arbiter_key_collision_counterexample :
    acceptanceKey (fun s => s) (⟨⟨"a", 1⟩, "2-z"⟩ : Acceptance String) =
      acceptanceKey (fun s => s) (⟨⟨"a-1", 2⟩, "z"⟩ : Acceptance String) ∧
    declarations (fun s => s) 2
      ([⟨⟨"a", 1⟩, "2-z"⟩, ⟨⟨"a-1", 2⟩, "z"⟩] : List (Acceptance String)) = ["2-z"] ∧
    (⟨"a", 1⟩ : SuggestionId) ≠ ⟨"a-1", 2⟩ ∧ "2-z" ≠ "z" := by
  refine ⟨by decide, by decide, by decide, by decide⟩

/-! ## Claim C7 -/

/-- Helper: `takeWhile` ignores everything from the first failing element
on, wherever it occurs. -/
theorem takeWhile_append_stop {α : Type} (p : α → Bool) (e : α)
    (pre post : List α) (he : p e = false) :
    (pre ++ e :: post).takeWhile p = pre.takeWhile p := by
  induction pre with
  | nil => simp [List.takeWhile, he]
  | cons a t ih =>
    by_cases ha : p a = true
    · simp [List.takeWhile, ha, ih]
    · simp only [List.cons_append, List.takeWhile]
      rw [Bool.not_eq_true] at ha
      simp [ha]

/-- C7: once a `Success` message appears on the suggester's incoming
stream, the try-permission loop is terminated — events after the first
`Success` produce no further `PermitRequest` broadcasts — while the
merged nack/under-quorum subscription feeding the monotone SID gate is
unaffected by the `Success` (late nacks are still processed, without
starting new permit-request rounds). -/
theorem success_terminates_try_loop_spec {T : Type} (uid : String)
    (pre post : List (SuggesterEvent T)) (v : T) :
    permitBroadcasts uid (pre ++ .successMsg v :: post) = permitBroadcasts uid pre ∧
    sidGateOutputs (pre ++ .successMsg v :: post) = sidGateOutputs (pre ++ post) := by
  constructor
  · unfold permitBroadcasts
    rw [takeWhile_append_stop _ (SuggesterEvent.successMsg v) pre post (by rfl)]
  · unfold sidGateOutputs
    simp [List.filterMap_append, List.filterMap_cons]

/-! ## Claim C8 -/

/-- Modelled from the spec: the delay schedule in which the n-th trigger
emission (0-indexed, counting the first emission as n = 0) is delayed by
`mapper(t0, n)` milliseconds. -/
def delaySchedule {A : Type} (mapper : Nat → Nat → Nat) (t0 : Nat) :
    Nat → List A → List (Nat × A)
  | _, [] => []
  | n, x :: xs => (mapper t0 n, x) :: delaySchedule mapper t0 (n + 1) xs

/-- Helper: the scan-filter-map pipeline of `coordinateRetries` computes
exactly the 0-indexed delay schedule. -/
theorem coordinateRetries_eq_delaySchedule {A : Type} (mapper : Nat → Nat → Nat)
    (t0 : Nat) (xs : List A) :
    coordinateRetries mapper t0 xs = delaySchedule mapper t0 0 xs := by
  have aux : ∀ (xs : List A) (n : Nat),
      ((coordScan ((n : Int) - 1) xs).filter (fun p => -1 < p.1)).map
        (fun p => (mapper t0 p.1.toNat, p.2)) = delaySchedule mapper t0 n xs := by
    intro xs
    induction xs with
    | nil => intro n; rfl
    | cons x xs ih =>
      intro n
      have h0 : (n : Int) - 1 + 1 = (n : Int) := by ring
      have hpos : (-1 : Int) < (n : Int) := by omega
      simp only [coordScan, h0]
      rw [List.filter_cons_of_pos (by simpa using hpos)]
      rw [List.map_cons]
      have h1 : (n : Int) = ((n + 1 : Nat) : Int) - 1 := by push_cast; ring
      rw [h1, ih (n + 1)]
      simp [delaySchedule]
  have := aux xs 0
  simpa [coordinateRetries] using this

/-- C8 counterexample: the first emission through the backoff variants is
*not* passed with zero delay — `ExponentialBackoff` delays it by
`2⁰ · 100 = 100` ms and `IncrementalBackoff(7, 3)` by `7 · 3⁰ = 7` ms. -/
theorem backoff_first_emission_delayed :
    coordinateRetries exponentialMapper 0 [()] = [(100, ())] ∧ (100 : Nat) ≠ 0 ∧
    coordinateRetries (incrementalMapper 3) 7 [()] = [(7, ())] ∧ (7 : Nat) ≠ 0 := by
  refine ⟨by decide, by decide, by decide, by decide⟩

/-- C8 (amended): for every trigger sequence, the n-th emission
(0-indexed, the first emission included) is delayed by `t0 · kⁿ` for
`IncrementalBackoff(t0, k)` and by `2ⁿ · 100` ms for
`ExponentialBackoff` — in particular the first emission is delayed by
`t0` resp. `100` ms rather than passing through immediately — and the
`Noop` coordinator is the identity transform. -/
theorem retry_backoff_schedule_spec {A : Type} (t0 k : Nat) (xs : List A) :
    coordinateRetries (incrementalMapper k) t0 xs =
      delaySchedule (fun a b => a * k ^ b) t0 0 xs ∧
    coordinateRetries exponentialMapper 0 xs =
      delaySchedule (fun _ b => 2 ^ b * 100) 0 0 xs ∧
    noopCoordinateRetries xs = xs := by
  exact ⟨coordinateRetries_eq_delaySchedule _ t0 xs,
         coordinateRetries_eq_delaySchedule _ 0 xs, rfl⟩

/-! ## Claim C9 -/

theorem digitChar_ne_dash : ∀ d : Nat, d < 10 → Nat.digitChar d ≠ '-' := by
  decide

theorem digitChar_toNat_eq : ∀ d : Nat, d < 10 → (Nat.digitChar d).toNat = 48 + d := by
  decide

theorem natDigitsAux_no_dash : ∀ fuel n, '-' ∉ SID.natDigitsAux fuel n := by
  intro fuel
  induction fuel with
  | zero => intro n h; cases h
  | succ fuel ih =>
    intro n h
    unfold SID.natDigitsAux at h
    by_cases hn : n < 10
    · rw [if_pos hn] at h
      exact digitChar_ne_dash n hn (List.mem_singleton.mp h).symm
    · rw [if_neg hn] at h
      rcases List.mem_append.mp h with h' | h'
      · exact ih _ h'
      · exact digitChar_ne_dash (n % 10) (Nat.mod_lt n (by omega))
          (List.mem_singleton.mp h').symm

theorem natDigitsAux_foldl : ∀ fuel n, n < fuel →
    (SID.natDigitsAux fuel n).foldl (fun a c => 10 * a + (c.toNat - 48)) 0 = n := by
  intro fuel
  induction fuel with
  | zero => intro n h; omega
  | succ fuel ih =>
    intro n h
    unfold SID.natDigitsAux
    by_cases hn : n < 10
    · rw [if_pos hn]
      simp only [List.foldl_cons, List.foldl_nil, digitChar_toNat_eq n hn]
      omega
    · rw [if_neg hn]
      rw [List.foldl_append]
      have hdiv : n / 10 < fuel := by
        have h1 : n / 10 < n := Nat.div_lt_self (by omega) (by omega)
        omega
      rw [ih (n / 10) hdiv]
      simp only [List.foldl_cons, List.foldl_nil,
        digitChar_toNat_eq (n % 10) (Nat.mod_lt n (by omega))]
      omega

theorem natRepr_inj {m n : Nat} (h : SID.natRepr m = SID.natRepr n) : m = n := by
  have hdata : SID.natDigitsAux (m + 1) m = SID.natDigitsAux (n + 1) n :=
    congrArg String.data h
  have h1 := natDigitsAux_foldl (m + 1) m (by omega)
  have h2 := natDigitsAux_foldl (n + 1) n (by omega)
  rw [hdata] at h1
  exact h1.symm.trans h2

/-- Helper: splitting two list concatenations at an element that occurs
in neither right part. -/
theorem append_cons_eq_of_not_mem {α : Type} {c : α} :
    ∀ (xs xs' ys ys' : List α), c ∉ ys → c ∉ ys' →
      xs ++ c :: ys = xs' ++ c :: ys' → xs = xs' ∧ ys = ys' := by
  intro xs
  induction xs with
  | nil =>
    intro xs' ys ys' h1 h2 h
    cases xs' with
    | nil => simpa using h
    | cons a t =>
      rw [List.nil_append, List.cons_append] at h
      injection h with hca hrest
      subst hca
      exact absurd (hrest ▸ List.mem_append_right t (List.mem_cons_self _ _)) h1
  | cons a t ih =>
    intro xs' ys ys' h1 h2 h
    cases xs' with
    | nil =>
      rw [List.cons_append, List.nil_append] at h
      injection h with hca hrest
      subst hca
      exact absurd (hrest ▸ List.mem_append_right t (List.mem_cons_self _ _)) h2
    | cons a' t' =>
      rw [List.cons_append, List.cons_append] at h
      injection h with haa hrest
      obtain ⟨hh1, hh2⟩ := ih t' ys ys' h1 h2 hrest
      exact ⟨by rw [haa, hh1], hh2⟩

/-- C9 counterexample: `toString` is not injective over the full
`(integer, id)` domain — a negative integer's minus sign collides with a
hyphen at the end of the id: both `(id = "a", integer = -1)` and
`(id = "a-", integer = 1)` print as `"a--1"`, yet their ids differ. -/
theorem sid_toString_not_injective :
    SID.toString ⟨"a", -1⟩ = SID.toString ⟨"a-", 1⟩ ∧
    ¬((SuggestionId.mk "a" (-1)).id = (SuggestionId.mk "a-" 1).id ∧
      (SuggestionId.mk "a" (-1)).integer = (SuggestionId.mk "a-" 1).integer) := by
  refine ⟨by decide, by decide⟩

/-- C9 (amended): `SID.toString` is injective on the sub-domain of
suggestion ids with non-negative integers (the only ones the protocol
creates: counters start at 0 and are only incremented): equal strings
force equal ids and equal integers. -/
theorem sid_toString_injective_nonneg (a b : SuggestionId)
    (ha : 0 ≤ a.integer) (hb : 0 ≤ b.integer)
    (h : SID.toString a = SID.toString b) :
    a.id = b.id ∧ a.integer = b.integer := by
  have hna : ¬ a.integer < 0 := not_lt.mpr ha
  have hnb : ¬ b.integer < 0 := not_lt.mpr hb
  have hdata : a.id.data ++ '-' :: (SID.natRepr a.integer.toNat).data =
      b.id.data ++ '-' :: (SID.natRepr b.integer.toNat).data := by
    have h' := congrArg String.data h
    simpa [SID.toString, SID.jsIntRepr, hna, hnb] using h'
  obtain ⟨hid, hdigits⟩ :=
    append_cons_eq_of_not_mem a.id.data b.id.data _ _
      (natDigitsAux_no_dash _ _) (natDigitsAux_no_dash _ _) hdata
  have hids : a.id = b.id := congrArg String.mk hid
  have hnat : a.integer.toNat = b.integer.toNat :=
    natRepr_inj (congrArg String.mk hdigits)
  exact ⟨hids, by omega⟩

/-- Witness for the amended C9: applying injectivity at a concrete
non-negative pair. -/
theorem sid_toString_injective_nonneg_witness :
    (SuggestionId.mk "x" 2).id = (SuggestionId.mk "x" 2).id ∧
    (SuggestionId.mk "x" 2).integer = (SuggestionId.mk "x" 2).integer :=
  sid_toString_injective_nonneg ⟨"x", 2⟩ ⟨"x", 2⟩ (by decide) (by decide) rfl

end ClassicPaxos
